import Mathlib

/-!
Shallow embedding of the ride-sharing simulation
(`location.py`, `rider.py`, `driver.py`, `container.py`, `dispatcher.py`,
`event.py`) together with theorems about the embedded operations.

Python objects are modelled as immutable structures and mutation as
explicit state passing.  Where a Python method mutates an object that is
also referenced from a list (object aliasing), the embedding carries the
index of the aliased entry so that the list can be updated alongside the
returned object.
-/

namespace RideSim

/-! ### location.py -/

/-- `Location.__init__(row, column)` stores `self.m = column`, `self.n = row`.
Coordinates are the non-negative integers the constructor accepts. -/
structure Location where
  m : Nat
  n : Nat
deriving DecidableEq

/-- `manhattan_distance(origin, destination)`:
`abs(destination.n - origin.n) + abs(destination.m - origin.m)`
(returned as `longitude + latitude`). -/
def manhattan_distance (origin destination : Location) : Nat :=
  ((destination.m : Int) - (origin.m : Int)).natAbs +
    ((destination.n : Int) - (origin.n : Int)).natAbs

/-! ### rider.py -/

/-- The rider status constants `WAITING`, `CANCELLED`, `SATISFIED`. -/
inductive RiderStatus
  | Waiting
  | Cancelled
  | Satisfied
deriving DecidableEq

structure Rider where
  id : String
  origin : Location
  destination : Location
  patience : Nat
  status : RiderStatus
deriving DecidableEq

/-- `Rider.__init__`: status starts as `WAITING`. -/
def riderInit (identifier : String) (origin destination : Location)
    (patience : Nat) : Rider :=
  ⟨identifier, origin, destination, patience, RiderStatus.Waiting⟩

/-! ### driver.py -/

/-- A driver.  `location` is an `Option` because `end_drive` assigns
`self.location = self.destination`, which can set it to `None`. -/
structure Driver where
  id : String
  location : Option Location
  speed : Nat
  is_idle : Bool
  rider : Option Rider
  destination : Option Location
deriving DecidableEq

/-- `Driver.__init__`: idle by default, no rider, no destination. -/
def driverInit (identifier : String) (location : Location) (speed : Nat) :
    Driver :=
  ⟨identifier, some location, speed, true, none, none⟩

/-- Python 3 `round(d / s, 0)` on the exact rational `d / s`
(round half to even, "banker's rounding"); the `.5` midpoints of integer
quotients are dyadic rationals and hence exact in binary floating point,
so the float detour in the source does not change the result for the
magnitudes arising here. -/
def pyRound (d s : Nat) : Nat :=
  if 2 * (d % s) < s then d / s
  else if s < 2 * (d % s) then d / s + 1
  else if (d / s) % 2 = 0 then d / s else d / s + 1

/-- `Driver.get_travel_time(destination)`:
`int(round(manhattan_distance(self.location, destination) / self.speed, 0))`.
Python raises `AttributeError` when `self.location` is `None`; that case is
unreachable in the states the theorems below quantify over, and the total
model returns `0` there. -/
def get_travel_time (driver : Driver) (destination : Location) : Nat :=
  match driver.location with
  | some loc => pyRound (manhattan_distance loc destination) driver.speed
  | none => 0

/-- `Driver.start_drive(location)`: sets destination, clears the idle flag,
returns `self.get_travel_time(location)`. -/
def startDrive (driver : Driver) (location : Location) : Driver × Nat :=
  let d := { driver with destination := some location, is_idle := false }
  (d, get_travel_time d location)

/-- `Driver.end_drive()`: `self.location = self.destination`,
`self.is_idle = True`, `self.destination = None` — with no check that the
destination is set. -/
def endDrive (driver : Driver) : Driver :=
  { driver with location := driver.destination, is_idle := true,
                destination := none }

/-- `Driver.start_ride(rider)`: attaches the rider, heads to the rider's
destination, returns the travel time there. -/
def startRide (driver : Driver) (rider : Rider) : Driver × Nat :=
  let d := { driver with rider := some rider,
                         destination := some rider.destination,
                         is_idle := false }
  (d, get_travel_time d rider.destination)

/-- `Driver.end_ride()`: updates the location only when a destination is
set (silently skipping otherwise), then marks idle and clears destination
and rider. -/
def endRide (driver : Driver) : Driver :=
  let loc := match driver.destination with
    | some dst => some dst
    | none => driver.location
  { driver with location := loc, is_idle := true, destination := none,
                rider := none }

/-! ### container.py — `PriorityQueue`

The queue is used for `Event`s, whose rich comparisons all compare the
`timestamp` attribute; the embedding is generic over a `key` function into
`Nat` playing the role of that attribute, so `x <= y` is `key x ≤ key y`
and `x >= y` is `key y ≤ key x`. -/

/-- `PriorityQueue.is_empty()`: `len(self._items) == 0`. -/
def pqIsEmpty (items : List α) : Bool :=
  items.length == 0

/-- The `while` loop of `PriorityQueue.add`.  The loop walks the list from
the front; `lastItem` is `self._items[-1]`, which the loop reads before any
insertion happens.  `item <= items[i]` inserts at position `i` (represented
here by prepending to the suffix); otherwise `item >= items[-1]` appends to
the end of the whole list; otherwise the index advances.  If the loop falls
off the end no insertion happens. -/
def pqAddGo (key : α → Nat) (item lastItem : α) : List α → List α
  | [] => []
  | x :: xs =>
      if key item ≤ key x then item :: x :: xs
      else if key lastItem ≤ key item then x :: (xs ++ [item])
      else x :: pqAddGo key item lastItem xs

/-- `PriorityQueue.add(item)`: append to an empty list, otherwise run the
insertion loop (with `self._items[-1]` read up front). -/
def pqAdd (key : α → Nat) (items : List α) (item : α) : List α :=
  if pqIsEmpty items then items ++ [item]
  else pqAddGo key item (items.getLastD item) items

/-- `PriorityQueue.remove()`: when empty the body is `pass`, so the call
returns Python's `None` and leaves the queue unchanged; otherwise
`self._items.pop(0)`. -/
def pqRemove (items : List α) : Option α × List α :=
  match items with
  | [] => (none, items)
  | x :: xs => (some x, xs)

/-- The queue contents after adding a sequence of items to a fresh
`PriorityQueue` in order.  Since `remove` pops index 0, this list is also
the sequence of successive removals. -/
def pqFromList (key : α → Nat) (inserts : List α) : List α :=
  inserts.foldl (pqAdd key) []

/-! ### dispatcher.py -/

/-- The dispatcher's `_waiting_list` and `_available_drivers`. -/
structure DState where
  waiting_list : List Rider
  available_drivers : List Driver
deriving DecidableEq

/-- `Driver.__eq__`: compares `id`, `speed` and `location` (used by the
`in` test of `request_rider`). -/
def driverEq (a b : Driver) : Bool :=
  a.id == b.id && a.speed == b.speed && decide (a.location = b.location)

/-- A default driver used only to totalise `List.getD` in statements. -/
def dummyDriver : Driver :=
  ⟨"", none, 0, true, none, none⟩

/-- The `for driver in self._available_drivers` loop of `request_driver`:
replace the current `fastest_driver` whenever a driver is strictly faster
to the pickup place *and* idle.  The accumulator carries the index of the
current fastest driver so that the caller can model the in-place mutation
`fastest_driver.rider = rider` of the aliased list entry. -/
def selLoop (pickup : Location) : List Driver → Driver × Nat → Nat → Driver × Nat
  | [], best, _ => best
  | d :: rest, best, i =>
      if get_travel_time d pickup < get_travel_time best.1 pickup ∧
          d.is_idle = true then
        selLoop pickup rest (d, i) (i + 1)
      else
        selLoop pickup rest best (i + 1)

/-- `Dispatcher.request_driver(rider)`.  The initial `while` loop sets
`nobody_available` to `False` iff some driver in `_available_drivers` is
idle.  If nobody is available, the rider is appended to `_waiting_list`
(unconditionally) and `None` is returned.  Otherwise `fastest_driver`
starts as `_available_drivers[0]` (idle or not), the `for` loop scans the
whole list, and finally `fastest_driver.rider = rider` mutates the chosen
driver in place before it is returned (the returned option also carries
the index of the mutated entry). -/
def request_driver (s : DState) (rider : Rider) : Option (Driver × Nat) × DState :=
  if s.available_drivers.any (fun d => d.is_idle) then
    match s.available_drivers with
    | [] => (none, s)  -- unreachable: an idle driver exists, so the list is nonempty
    | d0 :: _ =>
        let fastest := selLoop rider.origin s.available_drivers (d0, 0) 0
        let fd := { fastest.1 with rider := some rider }
        (some (fd, fastest.2),
         { s with available_drivers := s.available_drivers.set fastest.2 fd })
  else
    (none, { s with waiting_list := s.waiting_list ++ [rider] })

/-- `Dispatcher.request_rider(driver)`: register the driver if the `in`
test (via `Driver.__eq__`) fails, then pop the longest-waiting rider (if
any) and set `driver.destination = assigned_rider.origin` without touching
`driver.is_idle`.  The third component is the (possibly mutated) driver
object; when the driver was appended, the appended list entry aliases it,
so the list holds the mutated copy. -/
def request_rider (s : DState) (driver : Driver) : Option Rider × DState × Driver :=
  let registered := s.available_drivers.any (fun d => driverEq d driver)
  match s.waiting_list with
  | [] =>
      (none,
       ⟨[], if registered then s.available_drivers
            else s.available_drivers ++ [driver]⟩,
       driver)
  | r :: rest =>
      let d' := { driver with destination := some r.origin }
      (some r,
       ⟨rest, if registered then s.available_drivers
              else s.available_drivers ++ [d']⟩,
       d')

/-! ### event.py

`Event` rich comparisons all compare `timestamp`, so events instantiate
the priority queue embedding with `key := Event.timestamp`.  The monitor
only appends to its activity log and is read nowhere in the transitions
modelled here, so `monitor.notify` calls are omitted from the state. -/

inductive Event
  | riderRequest (timestamp : Nat) (rider : Rider)
  | driverRequest (timestamp : Nat) (driver : Driver)
  | cancellation (timestamp : Nat) (rider : Rider)
  | pickup (timestamp : Nat) (rider : Rider) (driver : Driver)
  | dropoff (timestamp : Nat) (rider : Rider) (driver : Driver)
deriving DecidableEq

def Event.isPickup : Event → Bool
  | .pickup _ _ _ => true
  | _ => false

/-- `RiderRequest.do(dispatcher, monitor)`: ask the dispatcher for a
driver; if one is returned, `driver.start_drive(self.rider.origin)` and a
`Pickup` at `timestamp + travel_time` is appended; a `Cancellation` at
`timestamp + patience` is always appended last.  The dispatcher's aliased
list entry is updated alongside the mutated driver. -/
def riderRequestDo (t : Nat) (rider : Rider) (s : DState) :
    List Event × DState :=
  match request_driver s rider with
  | (none, s') => ([Event.cancellation (t + rider.patience) rider], s')
  | (some (d, fi), s') =>
      let started := startDrive d rider.origin
      ([Event.pickup (t + started.2) rider started.1,
        Event.cancellation (t + rider.patience) rider],
       { s' with available_drivers := s'.available_drivers.set fi started.1 })

/-- `DriverRequest.do(dispatcher, monitor)`: ask the dispatcher for a
rider; with no rider, no events.  Otherwise the travel time is taken to
`self.driver.destination` — which `request_rider` has just set to the
assigned rider's origin — and the driver starts driving there, producing a
`Pickup` at `timestamp + travel_time`. -/
def driverRequestDo (t : Nat) (driver : Driver) (s : DState) :
    List Event × DState × Driver :=
  match request_rider s driver with
  | (none, s', d') => ([], s', d')
  | (some r, s', d') =>
      let started := startDrive d' r.origin
      ([Event.pickup (t + started.2) r started.1], s', started.1)

/-- `Dropoff.do(dispatcher, monitor)`: set the rider `SATISFIED`, end the
ride, call `dispatcher.request_rider(self.driver)` *discarding* the
returned rider, and emit a `DriverRequest` at the same timestamp carrying
the (mutated) driver object. -/
def dropoffDo (t : Nat) (rider : Rider) (driver : Driver) (s : DState) :
    List Event × DState × Driver × Rider :=
  let rider' := { rider with status := RiderStatus.Satisfied }
  let d1 := endRide driver
  let res := request_rider s d1
  ([Event.driverRequest t res.2.2], res.2.1, res.2.2, rider')

/-- Driver states reachable through the `Driver` methods themselves
(`start_drive`, `end_drive`, `start_ride`, `end_ride`) from a freshly
constructed driver. -/
inductive DReach : Driver → Prop
  | init (identifier : String) (location : Location) (speed : Nat) :
      DReach (driverInit identifier location speed)
  | start_drive (d : Driver) (l : Location) :
      DReach d → DReach (startDrive d l).1
  | end_drive (d : Driver) : DReach d → DReach (endDrive d)
  | start_ride (d : Driver) (r : Rider) :
      DReach d → DReach (startRide d r).1
  | end_ride (d : Driver) : DReach d → DReach (endRide d)

/-- Modelled from the spec: "round-half-up" rounding of `d / s`, the
rounding mode the spec mandates for `travel_time`; used only to compare
the spec's words with the source's rounding. -/
def roundHalfUpSpec (d s : Nat) : Nat :=
  (2 * d + s) / (2 * s)

/-! ### Priority queue lemmas -/

lemma pqAddGo_mem (key : α → Nat) (item lastItem : α) :
    ∀ (l : List α) (y : α), y ∈ pqAddGo key item lastItem l → y = item ∨ y ∈ l := by
  intro l
  induction l with
  | nil => intro y hy; simp [pqAddGo] at hy
  | cons x xs ih =>
      intro y hy
      by_cases h1 : key item ≤ key x
      · simp only [pqAddGo, if_pos h1, List.mem_cons] at hy
        rcases hy with rfl | rfl | hy
        · exact Or.inl rfl
        · exact Or.inr (List.mem_cons_self _ _)
        · exact Or.inr (List.mem_cons_of_mem _ hy)
      · by_cases h2 : key lastItem ≤ key item
        · simp only [pqAddGo, if_neg h1, if_pos h2] at hy
          rcases List.mem_cons.1 hy with rfl | hy
          · exact Or.inr (List.mem_cons_self _ _)
          · rcases List.mem_append.1 hy with hy | hy
            · exact Or.inr (List.mem_cons_of_mem _ hy)
            · rw [List.mem_singleton] at hy
              exact Or.inl hy
        · simp only [pqAddGo, if_neg h1, if_neg h2, List.mem_cons] at hy
          rcases hy with rfl | hy
          · exact Or.inr (List.mem_cons_self _ _)
          · rcases ih y hy with h | h
            · exact Or.inl h
            · exact Or.inr (List.mem_cons_of_mem _ h)

lemma pqAddGo_sorted (key : α → Nat) (item lastItem : α) :
    ∀ (l : List α), l.Pairwise (fun a b => key a ≤ key b) →
      (∀ y ∈ l, key y ≤ key lastItem) →
      (pqAddGo key item lastItem l).Pairwise (fun a b => key a ≤ key b) := by
  intro l
  induction l with
  | nil => intro _ _; simp [pqAddGo]
  | cons x xs ih =>
      intro hs hl
      rw [List.pairwise_cons] at hs
      obtain ⟨hx, hxs⟩ := hs
      by_cases h1 : key item ≤ key x
      · simp only [pqAddGo, if_pos h1]
        refine List.pairwise_cons.2 ⟨?_, List.pairwise_cons.2 ⟨hx, hxs⟩⟩
        intro y hy
        rcases List.mem_cons.1 hy with rfl | hy
        · exact h1
        · exact le_trans h1 (hx y hy)
      · by_cases h2 : key lastItem ≤ key item
        · simp only [pqAddGo, if_neg h1, if_pos h2]
          refine List.pairwise_cons.2 ⟨?_, ?_⟩
          · intro y hy
            rcases List.mem_append.1 hy with hy | hy
            · exact hx y hy
            · rw [List.mem_singleton] at hy
              subst hy
              exact le_trans (hl x (List.mem_cons_self x xs)) h2
          · rw [List.pairwise_append]
            refine ⟨hxs, List.pairwise_singleton _ _, ?_⟩
            intro a ha b hb
            rw [List.mem_singleton] at hb
            subst hb
            exact le_trans (hl a (List.mem_cons_of_mem x ha)) h2
        · simp only [pqAddGo, if_neg h1, if_neg h2]
          refine List.pairwise_cons.2
            ⟨?_, ih hxs (fun y hy => hl y (List.mem_cons_of_mem x hy))⟩
          intro y hy
          rcases pqAddGo_mem key item lastItem xs y hy with rfl | hy
          · exact le_of_lt (Nat.lt_of_not_le h1)
          · exact hx y hy

lemma pairwise_le_getLastD (key : α → Nat) :
    ∀ (l : List α) (hd : α), l.Pairwise (fun a b => key a ≤ key b) →
      ∀ y ∈ l, key y ≤ key (l.getLastD hd) := by
  intro l
  induction l with
  | nil => intro hd _ y hy; simp at hy
  | cons x xs ih =>
      intro hd hs y hy
      rw [List.pairwise_cons] at hs
      obtain ⟨hx, hxs⟩ := hs
      rw [List.getLastD_cons hd x xs]
      rcases List.mem_cons.1 hy with rfl | hy
      · rcases List.mem_cons.1 (List.getLastD_mem_cons xs y) with hlast | hlast
        · rw [hlast]
        · exact hx _ hlast
      · exact ih x hxs y hy

lemma pqAdd_sorted (key : α → Nat) (items : List α) (item : α)
    (hs : items.Pairwise (fun a b => key a ≤ key b)) :
    (pqAdd key items item).Pairwise (fun a b => key a ≤ key b) := by
  unfold pqAdd
  by_cases hemp : pqIsEmpty items = true
  · have : items = [] := by
      unfold pqIsEmpty at hemp
      simpa [List.length_eq_zero] using hemp
    subst this
    simp [hemp]
  · rw [if_neg (by simpa using hemp)]
    exact pqAddGo_sorted key item (items.getLastD item) items hs
      (pairwise_le_getLastD key items item hs)

lemma foldl_pqAdd_sorted (key : α → Nat) :
    ∀ (inserts acc : List α), acc.Pairwise (fun a b => key a ≤ key b) →
      (inserts.foldl (pqAdd key) acc).Pairwise (fun a b => key a ≤ key b) := by
  intro inserts
  induction inserts with
  | nil => intro acc h; simpa using h
  | cons x xs ih => intro acc h; exact ih _ (pqAdd_sorted key acc x h)

/-- C7: for every sequence of adds into a fresh priority queue, the
internal list is sorted by priority, so the element popped at index 0 is
a minimum of the remaining items and successive removals are
non-decreasing by priority. -/
theorem pq_successive_removals (key : α → Nat) (inserts : List α) :
    (pqFromList key inserts).Pairwise (fun a b => key a ≤ key b) ∧
    ∀ x l', pqRemove (pqFromList key inserts) = (some x, l') →
      ∀ y ∈ l', key x ≤ key y := by
  have hs : (pqFromList key inserts).Pairwise (fun a b => key a ≤ key b) :=
    foldl_pqAdd_sorted key inserts [] List.Pairwise.nil
  refine ⟨hs, ?_⟩
  intro x l' hrem y hy
  rcases hq : pqFromList key inserts with _ | ⟨a, as⟩
  · rw [hq] at hrem
    simp [pqRemove] at hrem
  · rw [hq] at hrem
    rw [hq] at hs
    unfold pqRemove at hrem
    injection hrem with h1 h2
    injection h1 with h1
    subst h1
    subst h2
    exact (List.pairwise_cons.1 hs).1 y hy

/-- C7 witness: inserting `[2, 1, 2]` yields removals starting at the
minimum. -/
theorem pq_successive_removals_witness :
    pqRemove (pqFromList (fun n : Nat => n) [2, 1, 2]) = (some 1, [2, 2]) ∧
    ∀ y ∈ [2, 2], (1 : Nat) ≤ y :=
  ⟨by decide,
   fun y hy =>
     (pq_successive_removals (fun n : Nat => n) [2, 1, 2]).2 1 [2, 2]
       (by decide) y hy⟩

/-- C1: the claim asserts FIFO order on equal priorities, and the class
docstring of `PriorityQueue` promises the same, but `add` inserts an item
*before* the first element with `item <= element`, so equal-priority items
come out LIFO: adding A, B, C with equal priority (here priority is the
first component) and removing yields C first, not A. -/
theorem pq_equal_priority_ties_lifo :
    pqFromList (fun p : Nat × Nat => p.1) [(0, 1), (0, 2), (0, 3)] =
      [(0, 3), (0, 2), (0, 1)] ∧
    (pqRemove (pqFromList (fun p : Nat × Nat => p.1)
        [(0, 1), (0, 2), (0, 3)])).1 = some (0, 3) := by
  decide

/-- C5: evaluating `remove()` on an empty queue: the code's
`if self.is_empty(): pass` silently returns Python's `None` (the sentinel
modelled by `Option.none`) and leaves the queue unchanged, instead of
failing with an `EmptyContainer` error. -/
theorem pq_remove_empty_returns_none :
    pqRemove ([] : List (Nat × Nat)) = (none, []) ∧
    pqIsEmpty ([] : List (Nat × Nat)) = true := by
  decide

/-! ### Travel time rounding (C6) -/

/-- C6 counterexample: a driver at `(0, 0)` with speed 2 and destination at
Manhattan distance 1 has an exact `.5` quotient; the code rounds it to `0`
(Python 3 round-half-even), while the claimed round-half-up would give
`1`. -/
theorem travel_time_midpoint_counterexample :
    manhattan_distance ⟨0, 0⟩ ⟨0, 1⟩ = 1 ∧
    get_travel_time (driverInit "d" ⟨0, 0⟩ 2) ⟨0, 1⟩ = 0 ∧
    roundHalfUpSpec 1 2 = 1 := by
  decide

lemma pyRound_near (d s : Nat) (hs : 0 < s) :
    2 * (s * pyRound d s) ≤ 2 * d + s ∧ 2 * d ≤ 2 * (s * pyRound d s) + s := by
  have hqr := Nat.div_add_mod d s
  have hrlt := Nat.mod_lt d hs
  unfold pyRound
  split_ifs with h1 h2 h3
  · generalize hm : s * (d / s) = m at hqr ⊢
    omega
  · rw [Nat.mul_add, Nat.mul_one]
    generalize hm : s * (d / s) = m at hqr ⊢
    omega
  · generalize hm : s * (d / s) = m at hqr ⊢
    omega
  · rw [Nat.mul_add, Nat.mul_one]
    generalize hm : s * (d / s) = m at hqr ⊢
    omega

lemma pyRound_midpoint_even (d s : Nat) (hmid : 2 * (d % s) = s) :
    pyRound d s % 2 = 0 := by
  unfold pyRound
  split_ifs with h1 h2 h3 <;> omega

/-- C6 (amended): `travel_time` is `round(distance / speed)` with Python's
round-half-to-even: the result `t` is within `1/2` of the exact quotient
(`2·speed·t` is within `speed` of `2·distance`), and at an exact `.5`
midpoint the result is the even neighbour, not always the upper one. -/
theorem travel_time_round_half_even (driver : Driver) (dest loc : Location)
    (hloc : driver.location = some loc) (hs : 0 < driver.speed) :
    (2 * (driver.speed * get_travel_time driver dest) ≤
        2 * manhattan_distance loc dest + driver.speed ∧
      2 * manhattan_distance loc dest ≤
        2 * (driver.speed * get_travel_time driver dest) + driver.speed) ∧
    (2 * (manhattan_distance loc dest % driver.speed) = driver.speed →
      get_travel_time driver dest % 2 = 0) := by
  have ht : get_travel_time driver dest =
      pyRound (manhattan_distance loc dest) driver.speed := by
    unfold get_travel_time
    rw [hloc]
  rw [ht]
  exact ⟨pyRound_near (manhattan_distance loc dest) driver.speed hs,
    fun hmid => pyRound_midpoint_even (manhattan_distance loc dest)
      driver.speed hmid⟩

/-- C6 witness: the amended statement at the concrete midpoint input. -/
theorem travel_time_round_half_even_witness :
    (driverInit "d" ⟨0, 0⟩ 2).location = some ⟨0, 0⟩ ∧
    0 < (driverInit "d" ⟨0, 0⟩ 2).speed ∧
    ((2 * ((driverInit "d" ⟨0, 0⟩ 2).speed *
          get_travel_time (driverInit "d" ⟨0, 0⟩ 2) ⟨0, 1⟩) ≤
        2 * manhattan_distance ⟨0, 0⟩ ⟨0, 1⟩ + (driverInit "d" ⟨0, 0⟩ 2).speed ∧
      2 * manhattan_distance ⟨0, 0⟩ ⟨0, 1⟩ ≤
        2 * ((driverInit "d" ⟨0, 0⟩ 2).speed *
          get_travel_time (driverInit "d" ⟨0, 0⟩ 2) ⟨0, 1⟩) +
          (driverInit "d" ⟨0, 0⟩ 2).speed) ∧
     (2 * (manhattan_distance ⟨0, 0⟩ ⟨0, 1⟩ % (driverInit "d" ⟨0, 0⟩ 2).speed) =
          (driverInit "d" ⟨0, 0⟩ 2).speed →
        get_travel_time (driverInit "d" ⟨0, 0⟩ 2) ⟨0, 1⟩ % 2 = 0)) :=
  ⟨rfl, by decide, travel_time_round_half_even _ ⟨0, 1⟩ ⟨0, 0⟩ rfl (by decide)⟩

/-! ### Driver lifecycle (C3, C9) -/

/-- C9: evaluating the code at the failing input: on a driver whose
destination is unset, `end_drive` silently proceeds and corrupts the
location (`self.location = self.destination` assigns `None`) while marking
the driver idle, and `end_ride` silently leaves the driver unchanged —
neither raises a precondition violation. -/
theorem end_drive_unset_destination_silent :
    (driverInit "d" ⟨0, 0⟩ 1).destination = none ∧
    (endDrive (driverInit "d" ⟨0, 0⟩ 1)).location = none ∧
    (endDrive (driverInit "d" ⟨0, 0⟩ 1)).is_idle = true ∧
    endRide (driverInit "d" ⟨0, 0⟩ 1) = driverInit "d" ⟨0, 0⟩ 1 := by
  decide

/-- C3 counterexample: `Dispatcher.request_rider` sets the driver's
destination without clearing the idle flag, so a freshly constructed
(idle) driver handed to a dispatcher with a waiting rider ends up with a
destination set while still idle — violating `destination set ⟺ Driving`
for states reachable through dispatcher operations. -/
theorem request_rider_breaks_invariant :
    ((request_rider ⟨[riderInit "r" ⟨1, 2⟩ ⟨3, 4⟩ 5], []⟩
        (driverInit "d" ⟨0, 0⟩ 1)).2.2).destination = some ⟨1, 2⟩ ∧
    ((request_rider ⟨[riderInit "r" ⟨1, 2⟩ ⟨3, 4⟩ 5], []⟩
        (driverInit "d" ⟨0, 0⟩ 1)).2.2).is_idle = true := by
  decide

/-- C3 (amended): the invariant `destination set ⟺ status Driving` holds
for every driver state reachable through the `Driver` methods themselves
(`start_drive`, `end_drive`, `start_ride`, `end_ride`) from a fresh
driver; it is `request_rider` that breaks it. -/
theorem driver_invariant_driver_ops (d : Driver) (h : DReach d) :
    d.destination ≠ none ↔ d.is_idle = false := by
  induction h with
  | init identifier location speed => simp [driverInit]
  | start_drive d l _ ih => simp [startDrive]
  | end_drive d _ ih => simp [endDrive]
  | start_ride d r _ ih => simp [startRide]
  | end_ride d _ ih => simp [endRide]

/-- C3 witness: the invariant at a concrete reachable state. -/
theorem driver_invariant_driver_ops_witness :
    DReach (startDrive (driverInit "d" ⟨0, 0⟩ 1) ⟨2, 3⟩).1 ∧
    ((startDrive (driverInit "d" ⟨0, 0⟩ 1) ⟨2, 3⟩).1.destination ≠ none ↔
      (startDrive (driverInit "d" ⟨0, 0⟩ 1) ⟨2, 3⟩).1.is_idle = false) :=
  ⟨DReach.start_drive _ _ (DReach.init "d" ⟨0, 0⟩ 1),
   driver_invariant_driver_ops _
     (DReach.start_drive _ _ (DReach.init "d" ⟨0, 0⟩ 1))⟩

/-! ### Dispatcher driver selection (C2, C8) -/

lemma drop_cons_facts {drivers : List Driver} {i : Nat} {d : Driver}
    {rest : List Driver} (hdrop : drivers.drop i = d :: rest) :
    ∃ _ : i < drivers.length,
      drivers.getD i dummyDriver = d ∧ drivers.drop (i + 1) = rest := by
  have hi : i < drivers.length := by
    by_contra hcon
    push_neg at hcon
    rw [List.drop_eq_nil_of_le hcon] at hdrop
    exact (List.cons_ne_nil d rest) hdrop.symm
  refine ⟨hi, ?_, ?_⟩
  · have h2 := List.getElem_cons_drop drivers i hi
    rw [hdrop] at h2
    rw [List.getD_eq_getElem drivers dummyDriver hi]
    exact (List.cons.inj h2).1
  · have h2 := List.getElem_cons_drop drivers i hi
    rw [hdrop] at h2
    exact (List.cons.inj h2).2

lemma selLoop_pos (pickup : Location) (drivers : List Driver) :
    ∀ (rest : List Driver) (i : Nat) (best : Driver) (bi : Nat),
      drivers.drop i = rest → bi < drivers.length →
      drivers.getD bi dummyDriver = best →
      (selLoop pickup rest (best, bi) i).2 < drivers.length ∧
      drivers.getD (selLoop pickup rest (best, bi) i).2 dummyDriver =
        (selLoop pickup rest (best, bi) i).1 := by
  intro rest
  induction rest with
  | nil =>
      intro i best bi _ hbi hbest
      exact ⟨hbi, hbest⟩
  | cons d rest' ih =>
      intro i best bi hdrop hbi hbest
      obtain ⟨hi, hgetd, hdrop'⟩ := drop_cons_facts hdrop
      simp only [selLoop]
      split
      · exact ih (i + 1) d i hdrop' hi hgetd
      · exact ih (i + 1) best bi hdrop' hbi hbest

lemma selLoop_idle_spec (pickup : Location) (drivers : List Driver) :
    ∀ (rest : List Driver) (i : Nat) (best : Driver) (bi : Nat),
      drivers.drop i = rest → bi < drivers.length →
      drivers.getD bi dummyDriver = best → best.is_idle = true →
      (selLoop pickup rest (best, bi) i).1.is_idle = true ∧
      get_travel_time (selLoop pickup rest (best, bi) i).1 pickup ≤
        get_travel_time best pickup ∧
      (∀ d ∈ rest, d.is_idle = true →
        get_travel_time (selLoop pickup rest (best, bi) i).1 pickup ≤
          get_travel_time d pickup) ∧
      (selLoop pickup rest (best, bi) i = (best, bi) ∨
        (get_travel_time (selLoop pickup rest (best, bi) i).1 pickup <
            get_travel_time best pickup ∧
          i ≤ (selLoop pickup rest (best, bi) i).2 ∧
          ∀ j, i ≤ j → j < (selLoop pickup rest (best, bi) i).2 →
            (drivers.getD j dummyDriver).is_idle = true →
            get_travel_time (selLoop pickup rest (best, bi) i).1 pickup <
              get_travel_time (drivers.getD j dummyDriver) pickup)) := by
  intro rest
  induction rest with
  | nil =>
      intro i best bi _ hbi hbest hidle
      exact ⟨hidle, le_refl _, by simp, Or.inl rfl⟩
  | cons d rest' ih =>
      intro i best bi hdrop hbi hbest hidle
      obtain ⟨hi, hgetd, hdrop'⟩ := drop_cons_facts hdrop
      simp only [selLoop]
      split
      · rename_i hcond
        obtain ⟨hlt, hdidle⟩ := hcond
        obtain ⟨ih1, ih2, ih3, ih4⟩ := ih (i + 1) d i hdrop' hi hgetd hdidle
        refine ⟨ih1, le_of_lt (lt_of_le_of_lt ih2 hlt), ?_, Or.inr ⟨?_, ?_, ?_⟩⟩
        · intro x hx hxidle
          rcases List.mem_cons.1 hx with rfl | hx
          · exact ih2
          · exact ih3 x hx hxidle
        · exact lt_of_le_of_lt ih2 hlt
        · rcases ih4 with heq | ⟨_, hle, _⟩
          · rw [heq]
          · exact Nat.le_of_succ_le hle
        · intro j hij hjlt hjidle
          rcases ih4 with heq | ⟨hstrict, hle, hall⟩
          · rw [heq] at hjlt
            omega
          · rcases Nat.eq_or_lt_of_le hij with rfl | hij'
            · rw [hgetd]
              exact hstrict
            · exact hall j hij' hjlt hjidle
      · rename_i hcond
        have hcond' : d.is_idle = true →
            get_travel_time best pickup ≤ get_travel_time d pickup := by
          intro hdidle
          by_contra hcon
          push_neg at hcon
          exact hcond ⟨hcon, hdidle⟩
        obtain ⟨ih1, ih2, ih3, ih4⟩ := ih (i + 1) best bi hdrop' hbi hbest hidle
        refine ⟨ih1, ih2, ?_, ?_⟩
        · intro x hx hxidle
          rcases List.mem_cons.1 hx with rfl | hx
          · exact le_trans ih2 (hcond' hxidle)
          · exact ih3 x hx hxidle
        · rcases ih4 with heq | ⟨hstrict, hle, hall⟩
          · exact Or.inl heq
          · refine Or.inr ⟨hstrict, Nat.le_of_succ_le hle, ?_⟩
            intro j hij hjlt hjidle
            rcases Nat.eq_or_lt_of_le hij with rfl | hij'
            · rw [hgetd] at hjidle ⊢
              exact lt_of_lt_of_le hstrict (hcond' hjidle)
            · exact hall j hij' hjlt hjidle

/-- Concrete fixtures for the dispatcher counterexamples and witnesses. -/
def rW2 : Rider := riderInit "r" ⟨0, 0⟩ ⟨3, 4⟩ 5

def dBusyNear : Driver := ⟨"a", some ⟨0, 0⟩, 1, false, none, none⟩

def dIdleFar : Driver := ⟨"b", some ⟨5, 5⟩, 1, true, none, none⟩

/-- C2 counterexample: (i) with a busy driver first in the list and an
idle driver farther away, `request_driver` returns the *busy* first driver
(the `fastest_driver` seed is `_available_drivers[0]` regardless of
idleness); (ii) with no idle driver and the rider already on the waiting
list, the rider is appended again — there is no membership check. -/
theorem request_driver_claim_false :
    ((request_driver ⟨[], [dBusyNear, dIdleFar]⟩ rW2).1.map
        (fun p => p.1.is_idle)) = some false ∧
    (request_driver ⟨[rW2], [dBusyNear]⟩ rW2).2.waiting_list = [rW2, rW2] := by
  decide

/-- C2 (amended): when no known driver is idle, `request_driver` appends
the rider to the waiting list *unconditionally* (even if already present)
and returns no driver.  When the *first registered* driver is idle, the
returned driver is (a copy, with the rider attached, of) the idle driver
minimizing travel time to `rider.origin`, ties broken by earliest position
in the driver collection; if only a later driver is idle, the selection
seed is the possibly-busy first driver and the result can be non-idle. -/
theorem request_driver_behavior (s : DState) (rider : Rider) :
    ((∀ d ∈ s.available_drivers, d.is_idle = false) →
      (request_driver s rider).1 = none ∧
      (request_driver s rider).2.waiting_list =
        s.waiting_list ++ [rider]) ∧
    (∀ d0 rest, s.available_drivers = d0 :: rest → d0.is_idle = true →
      ∃ fd fi,
        (request_driver s rider).1 = some ({ fd with rider := some rider }, fi) ∧
        fi < s.available_drivers.length ∧
        s.available_drivers.getD fi dummyDriver = fd ∧
        fd.is_idle = true ∧
        (∀ d ∈ s.available_drivers, d.is_idle = true →
          get_travel_time fd rider.origin ≤ get_travel_time d rider.origin) ∧
        (∀ j, j < fi → (s.available_drivers.getD j dummyDriver).is_idle = true →
          get_travel_time fd rider.origin <
            get_travel_time (s.available_drivers.getD j dummyDriver)
              rider.origin)) := by
  obtain ⟨wl, ad⟩ := s
  constructor
  · intro hall
    have hany : ad.any (fun d => d.is_idle) = false := by
      rw [List.any_eq_false]
      intro d hd
      simp [hall d hd]
    unfold request_driver
    simp only at hany ⊢
    rw [hany]
    simp
  · intro d0 rest hdr hidle
    simp only at hdr
    subst hdr
    have hany : (d0 :: rest).any (fun d => d.is_idle) = true := by
      rw [List.any_eq_true]
      exact ⟨d0, List.mem_cons_self _ _, hidle⟩
    unfold request_driver
    simp only at hany ⊢
    rw [hany]
    simp only [if_true]
    refine ⟨(selLoop rider.origin (d0 :: rest) (d0, 0) 0).1,
      (selLoop rider.origin (d0 :: rest) (d0, 0) 0).2, rfl, ?_⟩
    obtain ⟨hpos1, hpos2⟩ :=
      selLoop_pos rider.origin (d0 :: rest) (d0 :: rest) 0 d0 0 rfl
        (by simp) rfl
    obtain ⟨hid, _, hmin, htie⟩ :=
      selLoop_idle_spec rider.origin (d0 :: rest) (d0 :: rest) 0 d0 0 rfl
        (by simp) rfl hidle
    refine ⟨hpos1, hpos2, hid, hmin, ?_⟩
    intro j hj hjidle
    rcases htie with heq | ⟨_, _, hall⟩
    · rw [heq] at hj
      omega
    · exact hall j (Nat.zero_le j) hj hjidle

/-- C2 witness: with a single idle registered driver the amended
description holds concretely. -/
theorem request_driver_behavior_witness :
    ((⟨[], [dIdleFar]⟩ : DState).available_drivers = dIdleFar :: [] ∧
      dIdleFar.is_idle = true) ∧
    ∃ fd fi,
      (request_driver ⟨[], [dIdleFar]⟩ rW2).1 =
        some ({ fd with rider := some rW2 }, fi) ∧
      fi < (⟨[], [dIdleFar]⟩ : DState).available_drivers.length ∧
      (⟨[], [dIdleFar]⟩ : DState).available_drivers.getD fi dummyDriver = fd ∧
      fd.is_idle = true ∧
      (∀ d ∈ (⟨[], [dIdleFar]⟩ : DState).available_drivers, d.is_idle = true →
        get_travel_time fd rW2.origin ≤ get_travel_time d rW2.origin) ∧
      (∀ j, j < fi →
        ((⟨[], [dIdleFar]⟩ : DState).available_drivers.getD j
            dummyDriver).is_idle = true →
        get_travel_time fd rW2.origin <
          get_travel_time ((⟨[], [dIdleFar]⟩ : DState).available_drivers.getD j
            dummyDriver) rW2.origin) :=
  ⟨⟨rfl, rfl⟩,
   (request_driver_behavior ⟨[], [dIdleFar]⟩ rW2).2 dIdleFar [] rfl rfl⟩

/-- C8 counterexample: `request_driver` does mutate the selected driver:
`fastest_driver.rider = rider` attaches the rider at selection time, so
the driver's rider reference is no longer what it was before the call. -/
theorem request_driver_mutates_rider :
    ((request_driver ⟨[], [driverInit "a" ⟨0, 0⟩ 1]⟩ rW2).2.available_drivers.getD
        0 dummyDriver).rider = some rW2 ∧
    (driverInit "a" ⟨0, 0⟩ 1).rider = none := by
  decide

/-- C8 (amended): `request_driver` leaves every known driver's identifier,
location, speed, idle flag and destination exactly as before the call —
in particular no driver becomes busy at selection time — and the only
mutation is that the selected driver's rider reference may be set to the
requesting rider. -/
theorem request_driver_frame (s : DState) (rider : Rider) (i : Nat)
    (hi : i < s.available_drivers.length) :
    (request_driver s rider).2.available_drivers.length =
      s.available_drivers.length ∧
    ((request_driver s rider).2.available_drivers.getD i dummyDriver).id =
      (s.available_drivers.getD i dummyDriver).id ∧
    ((request_driver s rider).2.available_drivers.getD i dummyDriver).location =
      (s.available_drivers.getD i dummyDriver).location ∧
    ((request_driver s rider).2.available_drivers.getD i dummyDriver).speed =
      (s.available_drivers.getD i dummyDriver).speed ∧
    ((request_driver s rider).2.available_drivers.getD i dummyDriver).is_idle =
      (s.available_drivers.getD i dummyDriver).is_idle ∧
    ((request_driver s rider).2.available_drivers.getD i dummyDriver).destination =
      (s.available_drivers.getD i dummyDriver).destination ∧
    (((request_driver s rider).2.available_drivers.getD i dummyDriver).rider =
        (s.available_drivers.getD i dummyDriver).rider ∨
      ((request_driver s rider).2.available_drivers.getD i dummyDriver).rider =
        some rider) := by
  obtain ⟨wl, ad⟩ := s
  simp only at hi ⊢
  unfold request_driver
  by_cases hany : ad.any (fun d => d.is_idle) = true
  · rw [hany]
    simp only [if_true]
    rcases had : ad with _ | ⟨d0, rest⟩
    · simp
    · subst had
      obtain ⟨hpos1, hpos2⟩ :=
        selLoop_pos rider.origin (d0 :: rest) (d0 :: rest) 0 d0 0 rfl
          (by simp) rfl
      simp only [List.length_set, true_and]
      by_cases hif : i = (selLoop rider.origin (d0 :: rest) (d0, 0) 0).2
      · rw [← hif] at hpos2 ⊢
        have hset : ((d0 :: rest).set i
              { (selLoop rider.origin (d0 :: rest) (d0, 0) 0).1 with
                rider := some rider }).getD i dummyDriver =
            { (selLoop rider.origin (d0 :: rest) (d0, 0) 0).1 with
                rider := some rider } := by
          rw [List.getD_eq_getElem _ _ (by simpa using hi)]
          exact List.getElem_set_self (by simpa using hi)
        rw [hset, hpos2]
        exact ⟨rfl, rfl, rfl, rfl, rfl, Or.inr rfl⟩
      · have hset : ((d0 :: rest).set
              (selLoop rider.origin (d0 :: rest) (d0, 0) 0).2
              { (selLoop rider.origin (d0 :: rest) (d0, 0) 0).1 with
                rider := some rider }).getD i dummyDriver =
            (d0 :: rest).getD i dummyDriver := by
          rw [List.getD_eq_getElem _ _ (by simpa using hi),
            List.getD_eq_getElem _ _ hi]
          exact List.getElem_set_ne (fun h => hif h.symm) (by simpa using hi)
        rw [hset]
        exact ⟨rfl, rfl, rfl, rfl, rfl, Or.inl rfl⟩
  · rw [Bool.not_eq_true] at hany
    rw [hany]
    simp

/-- C8 witness: the frame property at a concrete dispatcher state. -/
theorem request_driver_frame_witness :
    0 < (⟨[], [dIdleFar]⟩ : DState).available_drivers.length ∧
    (request_driver ⟨[], [dIdleFar]⟩ rW2).2.available_drivers.length =
      (⟨[], [dIdleFar]⟩ : DState).available_drivers.length ∧
    ((request_driver ⟨[], [dIdleFar]⟩ rW2).2.available_drivers.getD 0
        dummyDriver).is_idle =
      ((⟨[], [dIdleFar]⟩ : DState).available_drivers.getD 0
        dummyDriver).is_idle :=
  ⟨by decide,
   (request_driver_frame ⟨[], [dIdleFar]⟩ rW2 0 (by decide)).1,
   (request_driver_frame ⟨[], [dIdleFar]⟩ rW2 0 (by decide)).2.2.2.2.1⟩

/-! ### Event transitions (C4, C10) -/

/-- C4: `RiderRequest.do` always emits a `Cancellation` at
`timestamp + patience`, and when the dispatcher returns a driver it also
emits a `Pickup` at `timestamp + travel_time` (travel time from the
driver's current location to the rider's origin) and starts that driver
driving toward the rider's origin (destination set, no longer idle). -/
theorem rider_request_events (t : Nat) (rider : Rider) (s : DState) :
    Event.cancellation (t + rider.patience) rider ∈ (riderRequestDo t rider s).1 ∧
    ∀ d fi, (request_driver s rider).1 = some (d, fi) →
      (riderRequestDo t rider s).1 =
        [Event.pickup (t + get_travel_time d rider.origin) rider
          (startDrive d rider.origin).1,
         Event.cancellation (t + rider.patience) rider] ∧
      (startDrive d rider.origin).1.destination = some rider.origin ∧
      (startDrive d rider.origin).1.is_idle = false := by
  unfold riderRequestDo
  rcases h : request_driver s rider with ⟨o, s'⟩
  rcases o with _ | ⟨d0, fi0⟩
  · refine ⟨by simp, ?_⟩
    intro d fi heq
    simp at heq
  · refine ⟨by simp, ?_⟩
    intro d fi heq
    simp only [Option.some.injEq, Prod.mk.injEq] at heq
    obtain ⟨rfl, rfl⟩ := heq
    exact ⟨rfl, rfl, rfl⟩

/-- Concrete fixtures for the C4 witness. -/
def sW4 : DState := ⟨[], [driverInit "dw" ⟨0, 0⟩ 1]⟩

def rW4 : Rider := riderInit "rw" ⟨0, 3⟩ ⟨2, 2⟩ 7

def fdW4 : Driver := ⟨"dw", some ⟨0, 0⟩, 1, true, some rW4, none⟩

/-- C4 witness: with one idle registered driver, the dispatcher returns a
driver and the event list and driver transitions are as stated. -/
theorem rider_request_events_witness :
    (request_driver sW4 rW4).1 = some (fdW4, 0) ∧
    ((riderRequestDo 0 rW4 sW4).1 =
      [Event.pickup (0 + get_travel_time fdW4 rW4.origin) rW4
        (startDrive fdW4 rW4.origin).1,
       Event.cancellation (0 + rW4.patience) rW4] ∧
     (startDrive fdW4 rW4.origin).1.destination = some rW4.origin ∧
     (startDrive fdW4 rW4.origin).1.is_idle = false) :=
  ⟨by decide, (rider_request_events 0 rW4 sW4).2 fdW4 0 (by decide)⟩

/-- C10: when the waiting list is non-empty, `Dropoff.do` itself pops the
longest-waiting rider (through its direct `request_rider` call) and
discards it: the returned events are a single same-timestamp
`DriverRequest` and contain no `Pickup`, the waiting list shrinks by its
head (so it is not left unchanged), and processing the emitted
`DriverRequest` afterwards dequeues yet another rider. -/
theorem dropoff_waiting_list (t : Nat) (rider : Rider) (driver : Driver)
    (s : DState) (r : Rider) (rest : List Rider)
    (hw : s.waiting_list = r :: rest) :
    (dropoffDo t rider driver s).2.1.waiting_list = rest ∧
    (dropoffDo t rider driver s).1 =
      [Event.driverRequest t (dropoffDo t rider driver s).2.2.1] ∧
    (∀ e ∈ (dropoffDo t rider driver s).1, e.isPickup = false) ∧
    (dropoffDo t rider driver s).2.1.waiting_list ≠ s.waiting_list ∧
    (∀ r2 rest2, rest = r2 :: rest2 →
      (driverRequestDo t (dropoffDo t rider driver s).2.2.1
        (dropoffDo t rider driver s).2.1).2.1.waiting_list = rest2) := by
  obtain ⟨wl, ad⟩ := s
  simp only at hw
  subst hw
  refine ⟨rfl, rfl, ?_, ?_, ?_⟩
  · intro e he
    simp only [dropoffDo, request_rider, List.mem_singleton] at he
    subst he
    rfl
  · simp only [dropoffDo, request_rider]
    exact fun hcon => List.cons_ne_self r rest hcon.symm
  · intro r2 rest2 hr
    subst hr
    rfl

/-- Concrete fixtures for the C10 witness. -/
def rA10 : Rider := riderInit "ra" ⟨1, 1⟩ ⟨2, 2⟩ 3

def rB10 : Rider := riderInit "rb" ⟨3, 3⟩ ⟨4, 4⟩ 3

/-- C10 witness: a dropoff at a state with two waiting riders. -/
theorem dropoff_waiting_list_witness :
    (⟨[rA10, rB10], []⟩ : DState).waiting_list = rA10 :: [rB10] ∧
    (dropoffDo 5 rA10 (driverInit "dt" ⟨0, 0⟩ 1)
      ⟨[rA10, rB10], []⟩).2.1.waiting_list = [rB10] ∧
    (∀ r2 rest2, [rB10] = r2 :: rest2 →
      (driverRequestDo 5
        (dropoffDo 5 rA10 (driverInit "dt" ⟨0, 0⟩ 1) ⟨[rA10, rB10], []⟩).2.2.1
        (dropoffDo 5 rA10 (driverInit "dt" ⟨0, 0⟩ 1)
          ⟨[rA10, rB10], []⟩).2.1).2.1.waiting_list = rest2) :=
  ⟨rfl,
   (dropoff_waiting_list 5 rA10 (driverInit "dt" ⟨0, 0⟩ 1) ⟨[rA10, rB10], []⟩
     rA10 [rB10] rfl).1,
   (dropoff_waiting_list 5 rA10 (driverInit "dt" ⟨0, 0⟩ 1) ⟨[rA10, rB10], []⟩
     rA10 [rB10] rfl).2.2.2.2⟩

end RideSim
